import Mathlib

/-!
Verification development for the nonogrammer puzzle engine.

The JavaScript sources (board.js, solver.js, builder.js) are shallowly
embedded below.  A grid cell at runtime is a number (0 = blank, 1+ = colors),
`null` (unknown) or an array of numbers (a possibility set); this duck-typed
value becomes the inductive `Cell`.  In-place mutation of lines and boards is
modelled by explicit state threading, JavaScript exceptions by explicit
`fault` constructors, and the unbounded `for(;;)` / recursion of the solver by
a fuel parameter (`none` meaning the computation did not finish within the
given fuel).  Strings are modelled as `List Char`.
-/

deriving instance DecidableEq for Except

namespace Nonogrammer

/-- A cell value: `unknown` is JS `null`, `num v` a concrete number,
`set l` a JS array of candidate values. -/
inductive Cell where
  | unknown : Cell
  | num : Nat → Cell
  | set : List Nat → Cell
deriving DecidableEq, Repr

/-- A clue `{ value, run }` from board.js. -/
structure Clue where
  value : Nat
  run : Nat
deriving DecidableEq, Repr

/-- The Board class fields used by the solver and builder: dimensions, the
row-major `data` array, and the per-line clue lists. -/
structure Board where
  rows : Nat
  cols : Nat
  data : List Cell
  rowClues : List (List Clue)
  colClues : List (List Clue)
deriving DecidableEq, Repr

/-- `Board.prototype.get(row, col)`: `data[row * cols + col]`. -/
def Board.get (b : Board) (row col : Nat) : Cell :=
  b.data.getD (row * b.cols + col) Cell.unknown

/-- `Board.prototype.set(row, col, value)`. -/
def Board.set (b : Board) (row col : Nat) (v : Cell) : Board :=
  { b with data := b.data.set (row * b.cols + col) v }

/-- `Board.prototype.getRow`. -/
def Board.getRow (b : Board) (row : Nat) : List Cell :=
  (List.range b.cols).map (fun c => b.get row c)

/-- `Board.prototype.getCol`. -/
def Board.getCol (b : Board) (col : Nat) : List Cell :=
  (List.range b.rows).map (fun r => b.get r col)

/-- `Board.prototype.setRow`. -/
def Board.setRow (b : Board) (row : Nat) (line : List Cell) : Board :=
  (List.range b.cols).foldl (fun bb i => bb.set row i (line.getD i Cell.unknown)) b

/-- `Board.prototype.setCol`. -/
def Board.setCol (b : Board) (col : Nat) (line : List Cell) : Board :=
  (List.range b.rows).foldl (fun bb i => bb.set i col (line.getD i Cell.unknown)) b

/-- Number of `null` cells of a data array (`if (value === null) numUnknowns++`). -/
def countUnknownCells (l : List Cell) : Nat :=
  l.countP (fun c => c == Cell.unknown)

/-- `Board.prototype.clearData(value)`. -/
def Board.clearData (b : Board) (v : Cell) : Board :=
  { b with data := List.replicate (b.rows * b.cols) v }

/-- `Board.prototype.getMaxValue`: maximum over numeric data cells and all clue
values (array cells are skipped by the `typeof` test). -/
def Board.getMaxValue (b : Board) : Nat :=
  let dmax := b.data.foldl (fun m c => match c with | Cell.num v => max m v | _ => m) 0
  let rmax := b.rowClues.foldl (fun m rc => rc.foldl (fun m2 cl => max m2 cl.value) m) dmax
  b.colClues.foldl (fun m rc => rc.foldl (fun m2 cl => max m2 cl.value) m) rmax

/-- Strict (`===`) equality of two runtime cell values: numbers compare by
value, `null === null`, and two arrays are distinct heap objects. -/
def cellStrictEq : Cell → Cell → Bool
  | Cell.num a, Cell.num b => a == b
  | Cell.unknown, Cell.unknown => true
  | _, _ => false

/-- `countUnknownAsBlank` substitution used by `_makeCluesFromData`. -/
def substCell (cub : Bool) (c : Cell) : Cell :=
  if cub && c == Cell.unknown then Cell.num 0 else c

/-- One iteration `col = 1 .. cols` of the clue-derivation loop of
`_makeCluesFromData` (includeBlanks = false).  `k` counts the remaining
iterations; `none` models the `Cannot build clues from unknown grid` throw. -/
def deriveGo (cub : Bool) (line : List Cell) :
    Nat → Cell → Nat → Nat → List Clue → Option (List Clue)
  | 0, _, _, _, acc => some acc
  | k + 1, lastValue, startOfRun, col, acc =>
    let isEnd := col == line.length
    let same :=
      if isEnd then false
      else cellStrictEq (substCell cub (line.getD col Cell.unknown)) lastValue
    if same then
      deriveGo cub line k lastValue startOfRun (col + 1) acc
    else
      match lastValue with
      | Cell.num lv =>
        let acc2 := if lv == 0 then acc else acc ++ [⟨lv, col - startOfRun⟩]
        let newLast :=
          if isEnd then Cell.num 0 else substCell cub (line.getD col Cell.unknown)
        deriveGo cub line k newLast col (col + 1) acc2
      | _ => none

/-- Derive the clue list of one line from its data, as `_makeCluesFromData`
does for one row or column. -/
def deriveLineClues (cub : Bool) (line : List Cell) : Option (List Clue) :=
  if line.length == 0 then some []
  else deriveGo cub line line.length (substCell cub (line.getD 0 Cell.unknown)) 0 1 []

/-- Collect a list of options, failing if any entry failed. -/
def allSome {α : Type} : List (Option α) → Option (List α)
  | [] => some []
  | none :: _ => none
  | some a :: rest =>
    match allSome rest with
    | none => none
    | some l => some (a :: l)

/-- `Board.prototype._makeCluesFromData(false, cub)`: rows first, then
columns. -/
def Board.mkCluesFromData (b : Board) (cub : Bool) :
    Option (List (List Clue) × List (List Clue)) :=
  match allSome ((List.range b.rows).map (fun r => deriveLineClues cub (b.getRow r))) with
  | none => none
  | some rc =>
    match allSome ((List.range b.cols).map (fun c => deriveLineClues cub (b.getCol c))) with
    | none => none
    | some cc => some (rc, cc)

/-- `Board.prototype.buildCluesFromData`. -/
def Board.buildCluesFromData (b : Board) : Option Board :=
  match b.mkCluesFromData false with
  | none => none
  | some (rc, cc) => some { b with rowClues := rc, colClues := cc }

/-- `Board.prototype.validate(countUnknownAsBlank)`: re-derive clues from data
and compare them with the stored `rowClues` / `colClues`. -/
def Board.validate (b : Board) (cub : Bool) : Option Bool :=
  match b.mkCluesFromData cub with
  | none => none
  | some (rc, cc) =>
    some (((List.range b.rows).all fun r => rc.getD r [] == b.rowClues.getD r []) &&
          ((List.range b.cols).all fun c => cc.getD c [] == b.colClues.getD c []))

/-- Decimal digits of `n`, least significant first; fuel-structural so that it
reduces in the kernel. -/
def natDigitsAux : Nat → Nat → List Nat
  | 0, _ => []
  | fuel + 1, n => if n == 0 then [] else n % 10 :: natDigitsAux fuel (n / 10)

/-- The characters of the JS decimal rendering of a number. -/
def natChars (n : Nat) : List Char :=
  if n == 0 then ['0']
  else ((natDigitsAux n n).map (fun d => Char.ofNat (48 + d))).reverse

/-- A cell that is a concrete number or unknown (no possibility-set array). -/
def isConcreteOrUnknown : Cell → Bool
  | Cell.set _ => false
  | _ => true

/-- Inverse of the digit list (least significant first). -/
def unDigits : List Nat → Nat
  | [] => 0
  | d :: ds => d + 10 * unDigits ds

/-- `Array.prototype.join(',')` on a list of already-rendered pieces. -/
def joinComma : List (List Char) → List Char
  | [] => []
  | [x] => x
  | x :: y :: rest => x ++ ',' :: joinComma (y :: rest)

/-- The string a single cell contributes to `makeToken`: `'?'` for `null`,
the decimal rendering for a number, and — because `join` stringifies an array
by comma-joining its elements — the flattened comma join for a set cell. -/
def cellChars : Cell → List Char
  | Cell.unknown => ['?']
  | Cell.num n => natChars n
  | Cell.set l => joinComma (l.map natChars)

/-- `Board.prototype.makeToken`:
`data.map((x) => (x === null) ? '?' : x).join(',')`. -/
def Board.makeToken (b : Board) : List Char :=
  joinComma (b.data.map cellChars)

/-- `Solver.partialCopyBoard`: a fresh Board (the constructor clamps
dimensions below 2) with deep-copied data and shared clue lists. -/
def partialCopyBoard (board : Board) : Board :=
  { rows := if board.rows < 2 then 2 else board.rows
    cols := if board.cols < 2 then 2 else board.cols
    data := board.data
    rowClues := board.rowClues
    colClues := board.colClues }

/-! ## The line solver (`Solver.simpleSolveLine`, solver.js) -/

/-- The deduplicated list of clue values of a line. -/
def lineValuesOf (clues : List Clue) : List Nat :=
  clues.foldl (fun acc c => if acc.contains c.value then acc else acc ++ [c.value]) []

/-- `toKnownArray`: the array of possible values of a cell; `null` can be any
clue value or blank. -/
def toKnownArray (lv : List Nat) : Cell → List Nat
  | Cell.set l => l
  | Cell.unknown => lv ++ [0]
  | Cell.num v => [v]

/-- `valueSetsEqual`: `===` on two non-arrays, otherwise compare as value
lists (a non-array is wrapped in a singleton; `null` wraps to `[null]`, which
matches no numeric entry). -/
def valueSetsEqual (a b : Cell) : Bool :=
  match a, b with
  | Cell.num x, Cell.num y => x == y
  | Cell.unknown, Cell.unknown => true
  | Cell.unknown, Cell.num _ => false
  | Cell.num _, Cell.unknown => false
  | Cell.set l, Cell.num y => l.length == 1 && l.all (fun e => e == y)
  | Cell.num x, Cell.set l => 1 == l.length && l.contains x
  | Cell.unknown, Cell.set _ => false
  | Cell.set _, Cell.unknown => false
  | Cell.set l1, Cell.set l2 => l1.length == l2.length && l1.all (fun e => l2.contains e)

/-- `valueSetContains(set, otherSet)`: unknown contains anything; otherwise
every possible value of `otherSet` occurs in `set`. -/
def valueSetContains (lv : List Nat) (s other : Cell) : Bool :=
  match s with
  | Cell.unknown => true
  | _ => (toKnownArray lv other).all (fun e => (toKnownArray lv s).contains e)

/-- `valueSetRemove(set, el)`: splice out the first occurrence. -/
def valueSetRemove (lv : List Nat) (s : Cell) (el : Nat) : List Nat :=
  (toKnownArray lv s).erase el

/-- `union(a, b)` with deduplication. -/
def unionVals (lv : List Nat) (a b : Cell) : List Nat :=
  (toKnownArray lv a ++ toKnownArray lv b).foldl
    (fun res el => if res.contains el then res else res ++ [el]) []

/-- `trackPossibleLineSolution`: fold a complete candidate line into the
running intersection `knownCells`. -/
def trackPossibleLineSolution (lv : List Nat) (known : Option (List Cell))
    (curLine : List Cell) : Option (List Cell) :=
  match known with
  | none => some curLine
  | some ks =>
    some (List.zipWith
      (fun cur k => if cellStrictEq cur k then k else Cell.set (unionVals lv cur k))
      curLine ks)

/-- Mutable state of `tryCluePositions`: the working line and the accumulated
`knownCells`. -/
structure LineSt where
  curLine : List Cell
  known : Option (List Cell)
deriving Repr

/-- Write `v` into `k` consecutive cells starting at `start`. -/
def setCells (l : List Cell) (start k : Nat) (v : Cell) : List Cell :=
  match k with
  | 0 => l
  | k + 1 => setCells (l.set start v) (start + 1) k v

/-- The inner compatibility scan of a run: returns the first position in
`[cc, cc+k)` whose cell cannot be `value` (or `cc+k` if none), together with
the `foundDefiniteNonBlank` flag accumulated up to and including that cell. -/
def scanRun (lv : List Nat) (line : List Cell) (value : Nat) :
    Nat → Nat → Bool → Nat × Bool
  | cc, 0, f => (cc, f)
  | cc, k + 1, f =>
    let f2 := f || !(valueSetContains lv (line.getD cc Cell.unknown) (Cell.num 0))
    if !(valueSetContains lv (line.getD cc Cell.unknown) (Cell.num value)) then (cc, f2)
    else scanRun lv line value (cc + 1) k f2

/-- The last-clue check that all remaining cells can be blank, writing blanks
into the working line as it goes; stops (returning `false`) at the first cell
that cannot be blank. -/
def trailingScan (lv : List Nat) (line : List Cell) :
    List Cell → Nat → Nat → List Cell × Bool
  | curLine, _, 0 => (curLine, true)
  | curLine, i, k + 1 =>
    if !(valueSetContains lv (line.getD i Cell.unknown) (Cell.num 0)) then (curLine, false)
    else trailingScan lv line (curLine.set i (Cell.num 0)) (i + 1) k

/-- `tryCluePositions(curLine, clueIdx, nextPossibleCluePos)` from solver.js.
The `for (pos ...)` loop becomes recursion on `pos`; `continue` re-enters the
loop at the next position, `break` returns the current state.  `fuel` bounds
the recursion depth (the JS recursion always terminates, so any fuel at least
`(line.length + 2) * (clues.length + 2)` is never exhausted). -/
def tryCluePositions (lv : List Nat) (line : List Cell) (clues : List Clue) :
    Nat → LineSt → Nat → Nat → LineSt
  | 0, st, _, _ => st
  | fuel + 1, st, clueIdx, pos =>
    if clues.length == 0 then
      { curLine := setCells st.curLine 0 line.length (Cell.num 0)
        known := trackPossibleLineSolution lv st.known
          (setCells st.curLine 0 line.length (Cell.num 0)) }
    else if line.length ≤ pos then st
    else
      let clue := clues.getD clueIdx ⟨0, 0⟩
      let lp := line.getD pos Cell.unknown
      if valueSetsEqual lp (Cell.num 0) then
        tryCluePositions lv line clues fuel
          { st with curLine := st.curLine.set pos (Cell.num 0) } clueIdx (pos + 1)
      else if !(valueSetContains lv lp (Cell.num clue.value)) then
        if valueSetContains lv lp (Cell.num 0) then
          tryCluePositions lv line clues fuel
            { st with curLine := st.curLine.set pos (Cell.num 0) } clueIdx (pos + 1)
        else st
      else if line.length < pos + clue.run then st
      else
        let scanned := scanRun lv line clue.value pos clue.run false
        if scanned.1 ≠ pos + clue.run then
          if scanned.2 then st
          else
            tryCluePositions lv line clues fuel
              { st with curLine := setCells st.curLine pos (scanned.1 - pos + 1) (Cell.num 0) }
              clueIdx (scanned.1 + 1)
        else if decide (pos + clue.run < line.length) &&
            valueSetsEqual (line.getD (pos + clue.run) Cell.unknown) (Cell.num clue.value) then
          if valueSetContains lv lp (Cell.num 0) then
            tryCluePositions lv line clues fuel
              { st with curLine := st.curLine.set pos (Cell.num 0) } clueIdx (pos + 1)
          else st
        else
          let st1 :=
            if pos + clue.run < line.length then
              { st with curLine := (st.curLine.set (pos + clue.run)
                  (Cell.set (valueSetRemove lv (st.curLine.getD (pos + clue.run) Cell.unknown)
                    clue.value))) }
            else st
          if clueIdx == clues.length - 1 then
            let tr := trailingScan lv line st1.curLine (pos + clue.run)
              (line.length - (pos + clue.run))
            let st2 : LineSt := { st1 with curLine := tr.1 }
            if !tr.2 then
              if valueSetContains lv lp (Cell.num 0) then
                tryCluePositions lv line clues fuel
                  { st2 with curLine := st2.curLine.set pos (Cell.num 0) } clueIdx (pos + 1)
              else st2
            else
              let st3 : LineSt :=
                { st2 with curLine := setCells st2.curLine pos clue.run (Cell.num clue.value) }
              let st4 : LineSt :=
                { st3 with known := trackPossibleLineSolution lv st3.known st3.curLine }
              if valueSetContains lv lp (Cell.num 0) then
                tryCluePositions lv line clues fuel
                  { st4 with curLine := st4.curLine.set pos (Cell.num 0) } clueIdx (pos + 1)
              else st4
          else
            if line.length ≤ pos + clue.run then st1
            else if (clues.getD (clueIdx + 1) ⟨0, 0⟩).value == clue.value &&
                !(valueSetContains lv (line.getD (pos + clue.run) Cell.unknown) (Cell.num 0)) then
              if valueSetContains lv lp (Cell.num 0) then
                tryCluePositions lv line clues fuel
                  { st1 with curLine := st1.curLine.set pos (Cell.num 0) } clueIdx (pos + 1)
              else st1
            else
              let st1b : LineSt :=
                if (clues.getD (clueIdx + 1) ⟨0, 0⟩).value == clue.value then
                  { st1 with curLine := st1.curLine.set (pos + clue.run) (Cell.num 0) }
                else st1
              let st3 : LineSt :=
                { st1b with curLine := setCells st1b.curLine pos clue.run (Cell.num clue.value) }
              let nextNPCP :=
                pos + clue.run +
                  (if (clues.getD (clueIdx + 1) ⟨0, 0⟩).value == clue.value then 1 else 0)
              let st4 := tryCluePositions lv line clues fuel st3 (clueIdx + 1) nextNPCP
              if valueSetContains lv lp (Cell.num 0) then
                tryCluePositions lv line clues fuel
                  { st4 with curLine := st4.curLine.set pos (Cell.num 0) } clueIdx (pos + 1)
              else st4

/-- Result of `simpleSolveLine`: `unsat` is the JS `null` return, `fault` the
`Valid line solution contradicts line?` throw, and `ok line numSolved
numRemainingUnknowns` the normal return with the updated line. -/
inductive LineRes where
  | unsat : LineRes
  | fault : LineRes
  | ok : List Cell → Nat → Nat → LineRes
deriving DecidableEq, Repr

/-- The final per-cell loop of `simpleSolveLine`: conditionally adopt
`knownCells[i]`, count solved and unknown cells, and fault if the adopted
value is not contained in the line's previous value. -/
def finalizeGo (lv : List Nat) (ks : List Cell) :
    Nat → Nat → List Cell → Nat → Nat → Option (List Cell × Nat × Nat)
  | 0, _, line, ns, nu => some (line, ns, nu)
  | k + 1, i, line, ns, nu =>
    let kc := ks.getD i Cell.unknown
    let lc := line.getD i Cell.unknown
    let kp := (toKnownArray lv kc).length
    let lpv := (toKnownArray lv lc).length
    let assign := kp ≤ lpv || (lc == Cell.unknown && kp == lpv)
    let line2 := if assign then line.set i kc else line
    let ns2 := if assign then ns + 1 else ns
    let lc2 := line2.getD i Cell.unknown
    if !(valueSetContains lv lc2 kc) then none
    else
      let nu2 := if (toKnownArray lv lc2).length != 1 then nu + 1 else nu
      finalizeGo lv ks k (i + 1) line2 ns2 nu2

/-- The trailing simplification pass: singleton arrays become their element,
full-size arrays become `null`. -/
def simplifyCell (lv : List Nat) (c : Cell) : Cell :=
  match c with
  | Cell.set l =>
    if l.length == 1 then Cell.num (l.getD 0 0)
    else if l.length == lv.length + 1 then Cell.unknown
    else c
  | _ => c

/-- Does a line contain a cell the solver still treats as unknown
(`null`, or an array of more than one value)?  This is the early-return test
at the top of `simpleSolveLine`. -/
def hasUnknowns (line : List Cell) : Bool :=
  line.any (fun v =>
    v == Cell.unknown || (match v with | Cell.set l => decide (l.length > 1) | _ => false))

/-- `Solver.simpleSolveLine(line, clues)` from solver.js. -/
def simpleSolveLine (line : List Cell) (clues : List Clue) : LineRes :=
  if !(hasUnknowns line) then LineRes.ok line 0 0
  else
    let lv := lineValuesOf clues
    let st := tryCluePositions lv line clues
      ((line.length + 2) * (clues.length + 2)) ⟨line, none⟩ 0 0
    match st.known with
    | none => LineRes.unsat
    | some ks =>
      match finalizeGo lv ks ks.length 0 line 0 0 with
      | none => LineRes.fault
      | some (line2, ns, nu) => LineRes.ok (line2.map (simplifyCell lv)) ns nu

/-! ## The batch propagator (`Solver.prototype.simpleSolveBatch`, solver.js) -/

/-- Outcome of one rows-or-columns sweep: a fault, the contradiction
early-return `{ steps, contradiction: true }` (with the board at that point),
or continuation with board, step counter and the `solvedOne` flag. -/
inductive PassRes where
  | fault : PassRes
  | contra : Board → Nat → PassRes
  | cont : Board → Nat → Bool → PassRes
deriving DecidableEq, Repr

/-- The `for (let row ...)` loop of one pass of `simpleSolveBatch`. -/
def rowsGo : List Nat → Board → Nat → Bool → PassRes
  | [], b, steps, solved => PassRes.cont b steps solved
  | r :: rest, b, steps, solved =>
    match simpleSolveLine (b.getRow r) (b.rowClues.getD r []) with
    | LineRes.fault => PassRes.fault
    | LineRes.unsat => PassRes.contra b steps
    | LineRes.ok line n _ =>
      if n > 0 then rowsGo rest (b.setRow r line) (steps + 1) true
      else rowsGo rest b steps solved

/-- The `for (let col ...)` loop of one pass of `simpleSolveBatch`. -/
def colsGo : List Nat → Board → Nat → Bool → PassRes
  | [], b, steps, solved => PassRes.cont b steps solved
  | c :: rest, b, steps, solved =>
    match simpleSolveLine (b.getCol c) (b.colClues.getD c []) with
    | LineRes.fault => PassRes.fault
    | LineRes.unsat => PassRes.contra b steps
    | LineRes.ok line n _ =>
      if n > 0 then colsGo rest (b.setCol c line) (steps + 1) true
      else colsGo rest b steps solved

/-- One iteration of the outer `for(;;)` loop: all rows, then all columns. -/
def passOnce (b : Board) (steps : Nat) : PassRes :=
  match rowsGo (List.range b.rows) b steps false with
  | PassRes.cont b2 s2 solved => colsGo (List.range b.cols) b2 s2 solved
  | other => other

/-- Result of `simpleSolveBatch`: fault, `{ steps, contradiction: true }`, or
`{ steps, remainingUnknowns, contradiction: false }` together with the solved
board. -/
inductive BatchRes where
  | fault : BatchRes
  | contra : Board → Nat → BatchRes
  | ok : Board → Nat → Nat → BatchRes
deriving DecidableEq, Repr

/-- The outer `for(;;)` loop of `simpleSolveBatch`, fueled: `none` means the
loop did not reach a fixed point within `fuel` passes. -/
def batchGo : Nat → Board → Nat → Option BatchRes
  | 0, _, _ => none
  | fuel + 1, b, steps =>
    match passOnce b steps with
    | PassRes.fault => some BatchRes.fault
    | PassRes.contra b2 s2 => some (BatchRes.contra b2 s2)
    | PassRes.cont b2 s2 solved =>
      if solved then batchGo fuel b2 s2
      else some (BatchRes.ok b2 s2 (countUnknownCells b2.data))

/-- `Solver.prototype.simpleSolveBatch()`. -/
def simpleSolveBatch (fuel : Nat) (b : Board) : Option BatchRes :=
  batchGo fuel b 0

/-! ## The exhaustive search (`Solver.findPossibleSolutions`, solver.js) -/

/-- The shared state of `findSolutionsFromState`: the accumulated solution
list and the visited-token set. -/
structure SearchSt where
  solutions : List Board
  visited : List (List Char)
deriving DecidableEq, Repr

/-- Find the first cell in row-major order whose value is `null` or an array,
returning its coordinates and the list of values to branch on
(`allPossibleValues` for `null`, the array itself otherwise). -/
def findUnknownRowsGo (allVals : List Nat) (b : Board) :
    Nat → Nat → Option (Nat × Nat × List Nat)
  | _, 0 => none
  | r, rLeft + 1 =>
    match (List.range b.cols).findSome?
      (fun c => match b.get r c with
        | Cell.unknown => some (r, c, allVals)
        | Cell.set l => some (r, c, l)
        | Cell.num _ => none) with
    | some hit => some hit
    | none => findUnknownRowsGo allVals b (r + 1) rLeft

/-- Row-major scan for the first still-unknown cell of the search. -/
def findFirstUnknownCell (allVals : List Nat) (b : Board) :
    Option (Nat × Nat × List Nat) :=
  findUnknownRowsGo allVals b 0 b.rows

/-- A pending step of the depth-first search: either the body of
`findSolutionsFromState` on a board, or the remainder of its
`for (let possibleValue of possibleValues)` branching loop. -/
inductive SearchTask where
  | explore : Board → SearchTask
  | branches : List Nat → Board → Nat → Nat → SearchTask

/-- `findSolutionsFromState(solver, depth)` from `findPossibleSolutions`,
together with its branching loop: propagate, check the visited set, emit a
solution when no unknowns remain, or branch on the first unknown cell.
`none` is fuel exhaustion; `Except.error` models an uncaught JS exception.
Fuel is structural so the definition evaluates in the kernel. -/
def searchGo (allVals : List Nat) :
    Nat → SearchTask → SearchSt → Option (Except Unit SearchSt)
  | 0, _, _ => none
  | fuel + 1, SearchTask.explore board, st =>
    match batchGo (fuel + 1) board 0 with
    | none => none
    | some BatchRes.fault => some (Except.error ())
    | some (BatchRes.contra _ _) => some (Except.ok st)
    | some (BatchRes.ok b2 _ ru) =>
      let token := b2.makeToken
      if st.visited.contains token then some (Except.ok st)
      else
        let st2 : SearchSt := { st with visited := st.visited ++ [token] }
        if ru == 0 then
          some (Except.ok { st2 with solutions := st2.solutions ++ [partialCopyBoard b2] })
        else
          match findFirstUnknownCell allVals b2 with
          | none => some (Except.ok st2)
          | some (r, c, vals) => searchGo allVals fuel (SearchTask.branches vals b2 r c) st2
  | _ + 1, SearchTask.branches [] _ _ _, st => some (Except.ok st)
  | fuel + 1, SearchTask.branches (v :: vs) b r c, st =>
    match searchGo allVals fuel (SearchTask.explore (b.set r c (Cell.num v))) st with
    | none => none
    | some (Except.error e) => some (Except.error e)
    | some (Except.ok st2) => searchGo allVals fuel (SearchTask.branches vs b r c) st2

/-- `Solver.findPossibleSolutions(board)`, fueled. -/
def findPossibleSolutions (fuel : Nat) (board : Board) :
    Option (Except Unit (List Board)) :=
  let allVals := List.range (board.getMaxValue + 1)
  match searchGo allVals fuel (SearchTask.explore (partialCopyBoard board)) ⟨[], []⟩ with
  | none => none
  | some (Except.error e) => some (Except.error e)
  | some (Except.ok st) => some (Except.ok st.solutions)

/-! ## Builder (builder.js) -/

/-- The builder parameters read by `_scoreStats` (the full record also has
the `max*` search limits and `numPuzzleIterations`, which scoring never
reads).  JS numbers become exact rationals. -/
structure BuilderParams where
  targetSolutionDepth : ℚ
  targetDeadEnds : ℚ
  targetTotalSteps : ℚ

/-- The solver statistics fed to `_scoreStats`. -/
structure SolveStats where
  solutionDepth : ℚ
  deadEnds : ℚ
  steps : ℚ

/-- `addToScore(stat, target, weight)` acting on the closure state
`(scoreMSE, countMSE)`. -/
def addToScore (stat target weight : ℚ) : ℚ × ℚ → ℚ × ℚ :=
  fun sc =>
    let percentErr := if target = 0 then 1 else (stat - target) / target
    let sqErr := percentErr * percentErr
    ((sc.1 * sc.2 + sqErr * weight) / (sc.2 + weight), sc.2 + 1)

/-- `numPrefilled` in `_scoreStats`: cells that are not `null`. -/
def countPrefilled (b : Board) : Nat :=
  b.data.countP (fun c => !(c == Cell.unknown))

/-- `Builder.prototype._scoreStats(stats, board)`. -/
def scoreStats (p : BuilderParams) (stats : SolveStats) (b : Board) : ℚ :=
  let s1 := addToScore stats.solutionDepth p.targetSolutionDepth 2 (0, 0)
  let s2 := addToScore stats.deadEnds p.targetDeadEnds 2 s1
  let s3 := addToScore stats.steps p.targetTotalSteps (3 / 2) s2
  let s4 := addToScore (((b.rows * b.cols : Nat) : ℚ) - (countPrefilled b : ℚ))
    ((b.rows * b.cols : Nat) : ℚ) (1 / 5) s3
  s4.1

/-- The board `_tryRandomPuzzle` starts each construction attempt from: the
`Builder` constructor rebuilds the filled board's clues, then the attempt
takes a partial copy and clears its data back to all-`null`. -/
def builderInitialBoard (filled : Board) : Option Board :=
  match filled.buildCluesFromData with
  | none => none
  | some fb => some ((partialCopyBoard fb).clearData Cell.unknown)

/-! ## Concrete boards used to settle the claims -/

/-- A fully blank 2×2 board whose first row clue demands a single 1: its data
is already fully concrete but inconsistent with its clues. -/
def inconsistentBlankBoard : Board :=
  { rows := 2, cols := 2
    data := [Cell.num 0, Cell.num 0, Cell.num 0, Cell.num 0]
    rowClues := [[⟨1, 1⟩], []], colClues := [[], []] }

/-- A fully blank 2×2 board whose first row clue run (3) exceeds the line
length (2). -/
def overrunBlankBoard : Board :=
  { rows := 2, cols := 2
    data := [Cell.num 0, Cell.num 0, Cell.num 0, Cell.num 0]
    rowClues := [[⟨1, 3⟩], []], colClues := [[], []] }

/-- An all-unknown 2×3 board on which every row and column clue is a single
run of one cell, so no line can be narrowed: the batch propagator makes no
progress on it, yet still counts every line as a step. -/
def ambiguousBoard : Board :=
  { rows := 2, cols := 3
    data := [Cell.unknown, Cell.unknown, Cell.unknown,
             Cell.unknown, Cell.unknown, Cell.unknown]
    rowClues := [[⟨1, 1⟩], [⟨1, 1⟩]]
    colClues := [[⟨1, 1⟩], [⟨1, 1⟩], [⟨1, 1⟩]] }

/-- A concrete 2×2 filled board (a diagonal of 1s) passed to the builder. -/
def diagBoard : Board :=
  { rows := 2, cols := 2
    data := [Cell.num 1, Cell.num 0, Cell.num 0, Cell.num 1]
    rowClues := [], colClues := [] }

/-- The all-unknown board (with the diagonal's clues) that the builder's
first construction attempt hands to the solver. -/
def diagStartBoard : Board :=
  { rows := 2, cols := 2
    data := [Cell.unknown, Cell.unknown, Cell.unknown, Cell.unknown]
    rowClues := [[⟨1, 1⟩], [⟨1, 1⟩]]
    colClues := [[⟨1, 1⟩], [⟨1, 1⟩]] }

/-- A 2×2 board with a set cell `[1]`. -/
def tokenBoardA : Board :=
  { rows := 2, cols := 2
    data := [Cell.set [1], Cell.num 0, Cell.num 0, Cell.num 0]
    rowClues := [[], []], colClues := [[], []] }

/-- The same 2×2 board with the concrete cell `1` instead. -/
def tokenBoardB : Board :=
  { rows := 2, cols := 2
    data := [Cell.num 1, Cell.num 0, Cell.num 0, Cell.num 0]
    rowClues := [[], []], colClues := [[], []] }

/-- An all-blank 2×2 board with empty clues everywhere (uniquely solved). -/
def blankBoard : Board :=
  { rows := 2, cols := 2
    data := [Cell.num 0, Cell.num 0, Cell.num 0, Cell.num 0]
    rowClues := [[], []], colClues := [[], []] }

/-- An all-unknown 2×2 board whose first row clue run exceeds the line
length. -/
def overrunUnknownBoard : Board :=
  { rows := 2, cols := 2
    data := [Cell.unknown, Cell.unknown, Cell.unknown, Cell.unknown]
    rowClues := [[⟨1, 3⟩], []], colClues := [[], []] }

/-! ## Helper lemmas -/

/-- If one full pass always returns the same board with `solvedOne` set, the
batch loop never reaches a fixed point, whatever the fuel. -/
theorem batchGo_stuck (b : Board) (k : Nat)
    (h : ∀ s, passOnce b s = PassRes.cont b (s + k) true) :
    ∀ fuel s, batchGo fuel b s = none := by
  intro fuel
  induction fuel with
  | zero => intro s; rfl
  | succ n ih =>
    intro s
    simp only [batchGo, h s, if_true]
    exact ih (s + k)

/-- One pass over `ambiguousBoard` changes nothing but still reports five
steps and `solvedOne`. -/
theorem passOnce_ambiguous (s : Nat) :
    passOnce ambiguousBoard s = PassRes.cont ambiguousBoard (s + 5) true := rfl

/-- One pass over `diagStartBoard` changes nothing but still reports four
steps and `solvedOne`. -/
theorem passOnce_diagStart (s : Nat) :
    passOnce diagStartBoard s = PassRes.cont diagStartBoard (s + 4) true := rfl

/-- Once `solvedOne` is set it stays set: a rows sweep started with the flag
true never ends with it false. -/
theorem rowsGo_true_flag :
    ∀ (idxs : List Nat) (b : Board) (s : Nat) (b2 : Board) (s2 : Nat),
      rowsGo idxs b s true ≠ PassRes.cont b2 s2 false := by
  intro idxs
  induction idxs with
  | nil => intro b s b2 s2 h; simp [rowsGo] at h
  | cons i rest ih =>
    intro b s b2 s2 h
    simp only [rowsGo] at h
    cases hl : simpleSolveLine (b.getRow i) (b.rowClues.getD i []) with
    | fault => simp only [hl] at h; simp at h
    | unsat => simp only [hl] at h; simp at h
    | ok line n u =>
      simp only [hl] at h
      by_cases hn : n > 0
      · rw [if_pos hn] at h; exact ih _ _ _ _ h
      · rw [if_neg hn] at h; exact ih _ _ _ _ h

/-- Same for a columns sweep. -/
theorem colsGo_true_flag :
    ∀ (idxs : List Nat) (b : Board) (s : Nat) (b2 : Board) (s2 : Nat),
      colsGo idxs b s true ≠ PassRes.cont b2 s2 false := by
  intro idxs
  induction idxs with
  | nil => intro b s b2 s2 h; simp [colsGo] at h
  | cons i rest ih =>
    intro b s b2 s2 h
    simp only [colsGo] at h
    cases hl : simpleSolveLine (b.getCol i) (b.colClues.getD i []) with
    | fault => simp only [hl] at h; simp at h
    | unsat => simp only [hl] at h; simp at h
    | ok line n u =>
      simp only [hl] at h
      by_cases hn : n > 0
      · rw [if_pos hn] at h; exact ih _ _ _ _ h
      · rw [if_neg hn] at h; exact ih _ _ _ _ h

/-- A rows sweep that ends with `solvedOne` still false made no step: the
board and the step counter are unchanged and the flag was false on entry. -/
theorem rowsGo_cont_false :
    ∀ (idxs : List Nat) (b : Board) (s : Nat) (fl : Bool) (b2 : Board) (s2 : Nat),
      rowsGo idxs b s fl = PassRes.cont b2 s2 false → b2 = b ∧ s2 = s ∧ fl = false := by
  intro idxs
  induction idxs with
  | nil =>
    intro b s fl b2 s2 h
    simp only [rowsGo] at h
    cases h
    exact ⟨rfl, rfl, rfl⟩
  | cons i rest ih =>
    intro b s fl b2 s2 h
    simp only [rowsGo] at h
    cases hl : simpleSolveLine (b.getRow i) (b.rowClues.getD i []) with
    | fault => simp only [hl] at h; simp at h
    | unsat => simp only [hl] at h; simp at h
    | ok line n u =>
      simp only [hl] at h
      by_cases hn : n > 0
      · rw [if_pos hn] at h
        exact absurd h (rowsGo_true_flag _ _ _ _ _)
      · rw [if_neg hn] at h
        exact ih _ _ _ _ _ h

/-- Same for a columns sweep. -/
theorem colsGo_cont_false :
    ∀ (idxs : List Nat) (b : Board) (s : Nat) (fl : Bool) (b2 : Board) (s2 : Nat),
      colsGo idxs b s fl = PassRes.cont b2 s2 false → b2 = b ∧ s2 = s ∧ fl = false := by
  intro idxs
  induction idxs with
  | nil =>
    intro b s fl b2 s2 h
    simp only [colsGo] at h
    cases h
    exact ⟨rfl, rfl, rfl⟩
  | cons i rest ih =>
    intro b s fl b2 s2 h
    simp only [colsGo] at h
    cases hl : simpleSolveLine (b.getCol i) (b.colClues.getD i []) with
    | fault => simp only [hl] at h; simp at h
    | unsat => simp only [hl] at h; simp at h
    | ok line n u =>
      simp only [hl] at h
      by_cases hn : n > 0
      · rw [if_pos hn] at h
        exact absurd h (colsGo_true_flag _ _ _ _ _)
      · rw [if_neg hn] at h
        exact ih _ _ _ _ _ h

/-- A no-progress rows sweep does not depend on the incoming step counter. -/
theorem rowsGo_restart :
    ∀ (idxs : List Nat) (b : Board) (s s0 : Nat),
      rowsGo idxs b s false = PassRes.cont b s false →
      rowsGo idxs b s0 false = PassRes.cont b s0 false := by
  intro idxs
  induction idxs with
  | nil => intro b s s0 _; simp [rowsGo]
  | cons i rest ih =>
    intro b s s0 h
    simp only [rowsGo] at h ⊢
    cases hl : simpleSolveLine (b.getRow i) (b.rowClues.getD i []) with
    | fault => simp only [hl] at h; simp at h
    | unsat => simp only [hl] at h; simp at h
    | ok line n u =>
      simp only [hl] at h ⊢
      by_cases hn : n > 0
      · rw [if_pos hn] at h
        exact absurd h (rowsGo_true_flag _ _ _ _ _)
      · rw [if_neg hn] at h
        rw [if_neg hn]
        exact ih _ _ _ h

/-- Same for a columns sweep. -/
theorem colsGo_restart :
    ∀ (idxs : List Nat) (b : Board) (s s0 : Nat),
      colsGo idxs b s false = PassRes.cont b s false →
      colsGo idxs b s0 false = PassRes.cont b s0 false := by
  intro idxs
  induction idxs with
  | nil => intro b s s0 _; simp [colsGo]
  | cons i rest ih =>
    intro b s s0 h
    simp only [colsGo] at h ⊢
    cases hl : simpleSolveLine (b.getCol i) (b.colClues.getD i []) with
    | fault => simp only [hl] at h; simp at h
    | unsat => simp only [hl] at h; simp at h
    | ok line n u =>
      simp only [hl] at h ⊢
      by_cases hn : n > 0
      · rw [if_pos hn] at h
        exact absurd h (colsGo_true_flag _ _ _ _ _)
      · rw [if_neg hn] at h
        rw [if_neg hn]
        exact ih _ _ _ h

/-- A pass that reports no progress leaves board and counter unchanged. -/
theorem passOnce_cont_false {b : Board} {s : Nat} {b2 : Board} {s2 : Nat}
    (h : passOnce b s = PassRes.cont b2 s2 false) : b2 = b ∧ s2 = s := by
  unfold passOnce at h
  cases hr : rowsGo (List.range b.rows) b s false with
  | fault => simp only [hr] at h; simp at h
  | contra bb ss => simp only [hr] at h; simp at h
  | cont br sr flr =>
    simp only [hr] at h
    obtain ⟨e1, e2, e3⟩ := colsGo_cont_false _ _ _ _ _ _ h
    subst e3
    obtain ⟨g1, g2, _⟩ := rowsGo_cont_false _ _ _ _ _ _ hr
    exact ⟨e1.trans g1, e2.trans g2⟩

/-- A no-progress pass does not depend on the incoming step counter. -/
theorem passOnce_restart {b : Board} {s : Nat}
    (h : passOnce b s = PassRes.cont b s false) :
    passOnce b 0 = PassRes.cont b 0 false := by
  unfold passOnce at h ⊢
  cases hr : rowsGo (List.range b.rows) b s false with
  | fault => simp only [hr] at h; simp at h
  | contra bb ss => simp only [hr] at h; simp at h
  | cont br sr flr =>
    simp only [hr] at h
    obtain ⟨e1, e2, e3⟩ := colsGo_cont_false _ _ _ _ _ _ h
    subst e3
    rw [← e1, ← e2] at h hr
    simp only [rowsGo_restart _ _ _ 0 hr]
    exact colsGo_restart _ _ _ 0 h

/-- The `remainingUnknowns` field of a successful batch result is the number
of `null` cells of the returned board. -/
theorem batchGo_count :
    ∀ (fuel : Nat) (b : Board) (s : Nat) (b2 : Board) (s2 ru : Nat),
      batchGo fuel b s = some (BatchRes.ok b2 s2 ru) →
      ru = countUnknownCells b2.data := by
  intro fuel
  induction fuel with
  | zero => intro b s b2 s2 ru h; simp [batchGo] at h
  | succ n ih =>
    intro b s b2 s2 ru h
    simp only [batchGo] at h
    cases hp : passOnce b s with
    | fault => simp only [hp] at h; simp at h
    | contra bb ss => simp only [hp] at h; simp at h
    | cont bb ss solved =>
      simp only [hp] at h
      cases solved with
      | true =>
        rw [if_pos rfl] at h
        exact ih _ _ _ _ _ h
      | false =>
        rw [if_neg (by simp)] at h
        cases h
        rfl

/-- A successful batch run ends at a fixed point: one more pass over the
returned board reports no progress. -/
theorem batchGo_fixedpoint :
    ∀ (fuel : Nat) (b : Board) (s : Nat) (b2 : Board) (s2 ru : Nat),
      batchGo fuel b s = some (BatchRes.ok b2 s2 ru) →
      passOnce b2 s2 = PassRes.cont b2 s2 false := by
  intro fuel
  induction fuel with
  | zero => intro b s b2 s2 ru h; simp [batchGo] at h
  | succ n ih =>
    intro b s b2 s2 ru h
    simp only [batchGo] at h
    cases hp : passOnce b s with
    | fault => simp only [hp] at h; simp at h
    | contra bb ss => simp only [hp] at h; simp at h
    | cont bb ss solved =>
      simp only [hp] at h
      cases solved with
      | true =>
        rw [if_pos rfl] at h
        exact ih _ _ _ _ _ h
      | false =>
        rw [if_neg (by simp)] at h
        cases h
        obtain ⟨q1, q2⟩ := passOnce_cont_false hp
        rw [q1, q2] at hp ⊢
        exact hp

end Nonogrammer

namespace Nonogrammer

/-! ## Claim theorems -/

/-- Claim C6: for the line of length 5 with clue sequence `[{value:1,run:3}]`
and every cell unknown, `simpleSolveLine` succeeds and leaves cell index 2
determined as color 1 while cells 0, 1, 3, 4 remain undetermined. -/
theorem claim_C6_middle_cell_forced :
    simpleSolveLine
      [Cell.unknown, Cell.unknown, Cell.unknown, Cell.unknown, Cell.unknown]
      [⟨1, 3⟩] =
    LineRes.ok [Cell.unknown, Cell.unknown, Cell.num 1, Cell.unknown, Cell.unknown] 5 4 := by
  decide

/-- Claim C7 (code bug): on the line `[1, null]` with an empty clue list the
only valid line solution is `[0, 0]`, which changes the previously concrete
cell `1` to the different concrete value `0`.  The spec requires a fault, but
`simpleSolveLine` assigns `knownCells[i]` to the line before running its
containment check, so the check always passes and the function silently
returns `[2, 0]` with the cell overwritten. -/
theorem claim_C7_silent_overwrite :
    simpleSolveLine [Cell.num 1, Cell.unknown] [] =
      LineRes.ok [Cell.num 0, Cell.num 0] 2 0 := by
  decide

/-- Claim C3 (code bug): `simpleSolveBatch` does not terminate on
`ambiguousBoard`.  Because the final loop of `simpleSolveLine` counts a cell
as "solved" whenever `knownPossibleValues <= linePossibleValues` (instead of
strictly less), every line that still contains an unknown reports progress on
every pass, so `solvedOne` never becomes false and the `for(;;)` loop spins
forever: for every fuel the fueled loop is exhausted. -/
theorem claim_C3_batch_nonterminating :
    ∀ fuel : Nat, simpleSolveBatch fuel ambiguousBoard = none := by
  intro fuel
  exact batchGo_stuck ambiguousBoard 5 passOnce_ambiguous fuel 0

/-- Claim C2 (code bug): `buildPuzzleFromData diagBoard level` never returns.
The builder's first construction attempt starts from `diagStartBoard` (the
all-unknown copy carrying the diagonal's clues) and immediately calls the
solver, whose `simpleSolveBatch` never reaches a fixed point on that board. -/
theorem claim_C2_builder_hangs :
    builderInitialBoard diagBoard = some diagStartBoard ∧
    ∀ fuel : Nat, simpleSolveBatch fuel diagStartBoard = none := by
  constructor
  · decide
  · intro fuel
    exact batchGo_stuck diagStartBoard 4 passOnce_diagStart fuel 0

/-- Claim C1 counterexample: on `inconsistentBlankBoard` (fully concrete data
that does not match its clues) `findPossibleSolutions` returns that very
board as its single "solution", and `validate()` rejects it.  Fully concrete
lines are never re-checked against their clues. -/
theorem claim_C1_counterexample :
    findPossibleSolutions 3 inconsistentBlankBoard =
      some (Except.ok [inconsistentBlankBoard]) ∧
    inconsistentBlankBoard.validate false = some false := by
  decide

/-- Claim C5 counterexample: a fully concrete line is returned as `[0, 0]`
without any clue check, even though its clue run 3 cannot fit in length 2;
and `findPossibleSolutions` on `overrunBlankBoard`, which contains that line,
returns that board instead of the empty list. -/
theorem claim_C5_counterexample :
    simpleSolveLine [Cell.num 0, Cell.num 0] [⟨1, 3⟩] =
      LineRes.ok [Cell.num 0, Cell.num 0] 0 0 ∧
    findPossibleSolutions 3 overrunBlankBoard =
      some (Except.ok [overrunBlankBoard]) := by
  decide

/-- Claim C8 counterexample: `tokenBoardA` and `tokenBoardB` have the same
dimensions and differ as states (a possibility-set cell `[1]` versus the
concrete value `1`), yet `makeToken` flattens the array into the comma join
and produces identical tokens. -/
theorem claim_C8_counterexample :
    tokenBoardA.makeToken = tokenBoardB.makeToken ∧
    tokenBoardA.data ≠ tokenBoardB.data ∧
    tokenBoardA.rows = tokenBoardB.rows ∧ tokenBoardA.cols = tokenBoardB.cols := by
  decide

/-- Claim C4: `simpleSolveBatch` is idempotent.  Whenever a run terminates
without contradiction, the returned board is at a fixed point of the pass
(every line reports zero newly solved cells), so a second run on that board
performs zero steps, leaves the board unchanged, and reports the same number
of remaining unknowns. -/
theorem claim_C4_batch_idempotent (fuel : Nat) (b b2 : Board) (steps ru : Nat)
    (h : simpleSolveBatch fuel b = some (BatchRes.ok b2 steps ru))
    (fuel2 : Nat) (h2 : 1 ≤ fuel2) :
    simpleSolveBatch fuel2 b2 = some (BatchRes.ok b2 0 ru) := by
  have hfix := batchGo_fixedpoint fuel b 0 b2 steps ru h
  have hcount := batchGo_count fuel b 0 b2 steps ru h
  have hfix0 : passOnce b2 0 = PassRes.cont b2 0 false := passOnce_restart hfix
  obtain ⟨k, rfl⟩ : ∃ k, fuel2 = k + 1 := ⟨fuel2 - 1, by omega⟩
  simp only [simpleSolveBatch, batchGo, hfix0]
  rw [hcount]
  simp

/-- Witness for C4 at the all-blank 2×2 board with empty clues. -/
theorem claim_C4_witness :
    simpleSolveBatch 1 blankBoard = some (BatchRes.ok blankBoard 0 0) ∧
    (1 : Nat) ≤ 1 ∧
    simpleSolveBatch 1 blankBoard = some (BatchRes.ok blankBoard 0 0) :=
  ⟨by decide, by decide,
    claim_C4_batch_idempotent 1 blankBoard blankBoard 0 0 (by decide) 1 (by decide)⟩

/-- The search only ever appends solutions whose board has no `null` cell. -/
theorem searchGo_complete (av : List Nat) :
    ∀ (fuel : Nat) (task : SearchTask) (st st2 : SearchSt),
      (∀ s ∈ st.solutions, countUnknownCells s.data = 0) →
      searchGo av fuel task st = some (Except.ok st2) →
      ∀ s ∈ st2.solutions, countUnknownCells s.data = 0 := by
  intro fuel
  induction fuel with
  | zero => intro task st st2 hst h; simp [searchGo] at h
  | succ n ih =>
    intro task st st2 hst h
    cases task with
    | explore board =>
      simp only [searchGo] at h
      cases hb : batchGo (n + 1) board 0 with
      | none => simp only [hb] at h; simp at h
      | some res =>
        cases res with
        | fault => simp only [hb] at h; simp at h
        | contra bb ss => simp only [hb] at h; cases h; exact hst
        | ok b2 s2 ru =>
          simp only [hb] at h
          have hru : ru = countUnknownCells b2.data := batchGo_count _ _ _ _ _ _ hb
          by_cases hv : (st.visited.contains b2.makeToken) = true
          · rw [if_pos hv] at h; cases h; exact hst
          · rw [if_neg hv] at h
            by_cases hz : (ru == 0) = true
            · rw [if_pos hz] at h
              cases h
              intro s hs
              rw [List.mem_append] at hs
              cases hs with
              | inl hs1 => exact hst s hs1
              | inr hs2 =>
                rw [List.mem_singleton] at hs2
                subst hs2
                have : countUnknownCells (partialCopyBoard b2).data =
                    countUnknownCells b2.data := rfl
                rw [this, ← hru]
                simpa using hz
            · rw [if_neg hz] at h
              cases hf : findFirstUnknownCell av b2 with
              | none => simp only [hf] at h; cases h; exact hst
              | some rc =>
                obtain ⟨r, c, vals⟩ := rc
                simp only [hf] at h
                exact ih (SearchTask.branches vals b2 r c)
                  { solutions := st.solutions, visited := st.visited ++ [b2.makeToken] }
                  st2 (fun s hs0 => hst s hs0) h
    | branches vals b r c =>
      cases vals with
      | nil => simp only [searchGo] at h; cases h; exact hst
      | cons v vs =>
        simp only [searchGo] at h
        cases hinner : searchGo av n (SearchTask.explore (b.set r c (Cell.num v))) st with
        | none => simp only [hinner] at h; simp at h
        | some ex =>
          cases ex with
          | error e => simp only [hinner] at h; simp at h
          | ok stm =>
            simp only [hinner] at h
            exact ih _ _ _ (ih _ _ _ hst hinner) h

/-- Claim C1 (amended): every board returned by `findPossibleSolutions` is
complete — it contains no unknown (`null`) cell.  (As stated the claim is
false: a returned board need not satisfy `validate()`, because lines that are
already fully concrete are never re-checked against their clues; see the
counterexample.) -/
theorem claim_C1_solutions_complete (fuel : Nat) (board : Board) (l : List Board)
    (h : findPossibleSolutions fuel board = some (Except.ok l)) :
    ∀ s ∈ l, countUnknownCells s.data = 0 := by
  simp only [findPossibleSolutions] at h
  cases hs : searchGo (List.range (board.getMaxValue + 1)) fuel
      (SearchTask.explore (partialCopyBoard board)) ⟨[], []⟩ with
  | none => rw [hs] at h; simp at h
  | some ex =>
    cases ex with
    | error e => rw [hs] at h; simp at h
    | ok st =>
      rw [hs] at h
      cases h
      exact searchGo_complete _ fuel _ _ st
        (by intro s hs0; exact absurd hs0 (List.not_mem_nil s)) hs

/-- Witness for the amended C1 at the all-blank 2×2 board. -/
theorem claim_C1_witness :
    findPossibleSolutions 3 blankBoard = some (Except.ok [blankBoard]) ∧
    countUnknownCells blankBoard.data = 0 :=
  ⟨by decide,
    claim_C1_solutions_complete 3 blankBoard [blankBoard] (by decide) blankBoard
      (List.mem_singleton.mpr rfl)⟩

/-- Claim C9: `_scoreStats` is monotonic in solution depth.  For fixed
parameters, two stats records identical in dead ends and steps, scored
against boards of the same dimensions and the same number of prefilled
cells, compare so that the solution depth closer to `targetSolutionDepth`
scores no higher.  (When `targetSolutionDepth` is 0 the percent error is the
constant 1 and both scores coincide.) -/
theorem claim_C9_score_monotone (p : BuilderParams) (s1 s2 : SolveStats)
    (b1 b2 : Board)
    (hd : s1.deadEnds = s2.deadEnds) (hs : s1.steps = s2.steps)
    (hr : b1.rows = b2.rows) (hc : b1.cols = b2.cols)
    (hpre : countPrefilled b1 = countPrefilled b2)
    (hclose : |s1.solutionDepth - p.targetSolutionDepth| ≤
      |s2.solutionDepth - p.targetSolutionDepth|) :
    scoreStats p s1 b1 ≤ scoreStats p s2 b2 := by
  have key :
      (if p.targetSolutionDepth = 0 then (1 : ℚ)
        else (s1.solutionDepth - p.targetSolutionDepth) / p.targetSolutionDepth) *
      (if p.targetSolutionDepth = 0 then (1 : ℚ)
        else (s1.solutionDepth - p.targetSolutionDepth) / p.targetSolutionDepth) ≤
      (if p.targetSolutionDepth = 0 then (1 : ℚ)
        else (s2.solutionDepth - p.targetSolutionDepth) / p.targetSolutionDepth) *
      (if p.targetSolutionDepth = 0 then (1 : ℚ)
        else (s2.solutionDepth - p.targetSolutionDepth) / p.targetSolutionDepth) := by
    by_cases ht : p.targetSolutionDepth = 0
    · simp [ht]
    · simp only [if_neg ht]
      have ht2 : (0 : ℚ) ≤ p.targetSolutionDepth * p.targetSolutionDepth :=
        mul_self_nonneg _
      have habs : (s1.solutionDepth - p.targetSolutionDepth) *
          (s1.solutionDepth - p.targetSolutionDepth) ≤
          (s2.solutionDepth - p.targetSolutionDepth) *
          (s2.solutionDepth - p.targetSolutionDepth) := by
        have hm := mul_self_le_mul_self (abs_nonneg _) hclose
        rwa [abs_mul_abs_self, abs_mul_abs_self] at hm
      rw [div_mul_div_comm, div_mul_div_comm]
      exact div_le_div_of_nonneg_right habs ht2
  unfold scoreStats addToScore
  dsimp only
  rw [hd, hs, hpre, hr, hc]
  generalize hq1 :
    (if p.targetSolutionDepth = 0 then (1 : ℚ)
      else (s1.solutionDepth - p.targetSolutionDepth) / p.targetSolutionDepth) *
    (if p.targetSolutionDepth = 0 then (1 : ℚ)
      else (s1.solutionDepth - p.targetSolutionDepth) / p.targetSolutionDepth) = q1 at key ⊢
  generalize hq2 :
    (if p.targetSolutionDepth = 0 then (1 : ℚ)
      else (s2.solutionDepth - p.targetSolutionDepth) / p.targetSolutionDepth) *
    (if p.targetSolutionDepth = 0 then (1 : ℚ)
      else (s2.solutionDepth - p.targetSolutionDepth) / p.targetSolutionDepth) = q2 at key ⊢
  generalize hqd :
    (if p.targetDeadEnds = 0 then (1 : ℚ)
      else (s2.deadEnds - p.targetDeadEnds) / p.targetDeadEnds) *
    (if p.targetDeadEnds = 0 then (1 : ℚ)
      else (s2.deadEnds - p.targetDeadEnds) / p.targetDeadEnds) = qd
  generalize hqs :
    (if p.targetTotalSteps = 0 then (1 : ℚ)
      else (s2.steps - p.targetTotalSteps) / p.targetTotalSteps) *
    (if p.targetTotalSteps = 0 then (1 : ℚ)
      else (s2.steps - p.targetTotalSteps) / p.targetTotalSteps) = qs
  generalize hqp :
    (if ((b2.rows * b2.cols : Nat) : ℚ) = 0 then (1 : ℚ)
      else (((b2.rows * b2.cols : Nat) : ℚ) - (countPrefilled b2 : ℚ) -
          ((b2.rows * b2.cols : Nat) : ℚ)) /
        ((b2.rows * b2.cols : Nat) : ℚ)) *
    (if ((b2.rows * b2.cols : Nat) : ℚ) = 0 then (1 : ℚ)
      else (((b2.rows * b2.cols : Nat) : ℚ) - (countPrefilled b2 : ℚ) -
          ((b2.rows * b2.cols : Nat) : ℚ)) /
        ((b2.rows * b2.cols : Nat) : ℚ)) = qp
  norm_num
  linarith

/-- When the first clue's run does not fit in the line at all, the position
loop of `tryCluePositions` never records a candidate: every position is
skipped as a blank or hits the overrun check and breaks. -/
theorem tryCluePositions_overrun (lv : List Nat) (line : List Cell)
    (c : Clue) (cs : List Clue) (hrun : line.length < c.run) :
    ∀ (fuel : Nat) (st : LineSt) (pos : Nat),
      (tryCluePositions lv line (c :: cs) fuel st 0 pos).known = st.known := by
  intro fuel
  induction fuel with
  | zero => intro st pos; rfl
  | succ k ih =>
    intro st pos
    simp only [tryCluePositions, List.length_cons, List.getD_cons_zero]
    rw [if_neg (by simp)]
    by_cases hp : line.length ≤ pos
    · rw [if_pos hp]
    · rw [if_neg hp]
      by_cases h1 : valueSetsEqual (line.getD pos Cell.unknown) (Cell.num 0) = true
      · rw [if_pos h1]
        exact ih _ _
      · rw [if_neg h1]
        by_cases h2 :
            (!(valueSetContains lv (line.getD pos Cell.unknown) (Cell.num c.value))) = true
        · rw [if_pos h2]
          by_cases h3 : valueSetContains lv (line.getD pos Cell.unknown) (Cell.num 0) = true
          · rw [if_pos h3]
            exact ih _ _
          · rw [if_neg h3]
        · rw [if_neg h2]
          rw [if_pos (show line.length < pos + c.run by omega)]

/-- A line that still contains an unknown and whose first clue's run exceeds
the line length is reported unsatisfiable by `simpleSolveLine`. -/
theorem simpleSolveLine_overrun (line : List Cell) (c : Clue) (cs : List Clue)
    (hu : hasUnknowns line = true) (hrun : line.length < c.run) :
    simpleSolveLine line (c :: cs) = LineRes.unsat := by
  unfold simpleSolveLine
  rw [hu]
  simp only [Bool.not_true, Bool.false_eq_true, if_false]
  rw [tryCluePositions_overrun _ _ c cs hrun]

theorem getRow_length (b : Board) (r : Nat) : (b.getRow r).length = b.cols := by
  simp [Board.getRow]

/-- A fold of field-preserving board updates preserves the fields. -/
theorem foldl_set_fields (g : Board → Nat → Board)
    (hg : ∀ bb i, (g bb i).rows = bb.rows ∧ (g bb i).cols = bb.cols ∧
      (g bb i).rowClues = bb.rowClues ∧ (g bb i).colClues = bb.colClues) :
    ∀ (l : List Nat) (b : Board),
      (l.foldl g b).rows = b.rows ∧ (l.foldl g b).cols = b.cols ∧
      (l.foldl g b).rowClues = b.rowClues ∧ (l.foldl g b).colClues = b.colClues := by
  intro l
  induction l with
  | nil => intro b; exact ⟨rfl, rfl, rfl, rfl⟩
  | cons i rest ih =>
    intro b
    have h1 := hg b i
    have h2 := ih (g b i)
    simp only [List.foldl_cons]
    exact ⟨h2.1.trans h1.1, h2.2.1.trans h1.2.1, h2.2.2.1.trans h1.2.2.1,
      h2.2.2.2.trans h1.2.2.2⟩

/-- `setRow` only writes data: dimensions and clues are untouched. -/
theorem setRow_fields (b : Board) (row : Nat) (line : List Cell) :
    (b.setRow row line).rows = b.rows ∧ (b.setRow row line).cols = b.cols ∧
    (b.setRow row line).rowClues = b.rowClues ∧
    (b.setRow row line).colClues = b.colClues := by
  unfold Board.setRow
  exact foldl_set_fields (fun bb i => bb.set row i (line.getD i Cell.unknown))
    (fun _ _ => ⟨rfl, rfl, rfl, rfl⟩) (List.range b.cols) b

/-- Distinct rows occupy disjoint index ranges of the row-major data array. -/
theorem rowmajor_ne (row r j c0 cols : Nat) (h : row ≠ r) (hj : j < cols)
    (hc : c0 < cols) : row * cols + j ≠ r * cols + c0 := by
  rcases Nat.lt_or_ge row r with hlt | hge
  · have h2 : (row + 1) * cols ≤ r * cols := Nat.mul_le_mul_right cols hlt
    have h1 : row * cols + cols ≤ r * cols := by
      calc row * cols + cols = (row + 1) * cols := by rw [Nat.succ_mul]
        _ ≤ r * cols := h2
    omega
  · have hgt : r < row := lt_of_le_of_ne hge (Ne.symm h)
    have h2 : (r + 1) * cols ≤ row * cols := Nat.mul_le_mul_right cols hgt
    have h1 : r * cols + cols ≤ row * cols := by
      calc r * cols + cols = (r + 1) * cols := by rw [Nat.succ_mul]
        _ ≤ row * cols := h2
    omega

theorem get_foldl_ne (row r c0 : Nat) (hne : row ≠ r) (line : List Cell) :
    ∀ (l : List Nat) (bb : Board), (∀ j ∈ l, j < bb.cols) → c0 < bb.cols →
      (l.foldl (fun b2 i => b2.set row i (line.getD i Cell.unknown)) bb).get r c0 =
        bb.get r c0 := by
  intro l
  induction l with
  | nil => intro bb _ _; rfl
  | cons j rest ih =>
    intro bb hl hc0
    simp only [List.foldl_cons]
    have hj := hl j (List.mem_cons_self _ _)
    rw [ih (bb.set row j (line.getD j Cell.unknown))
      (fun x hx => hl x (List.mem_cons_of_mem j hx)) hc0]
    unfold Board.get Board.set
    simp only [List.getD_eq_getElem?_getD]
    rw [List.getElem?_set_ne (rowmajor_ne row r j c0 bb.cols hne hj hc0)]

/-- Writing a different row leaves row `r` unchanged. -/
theorem getRow_setRow_ne (b : Board) (row : Nat) (line : List Cell) (r : Nat)
    (hne : row ≠ r) : (b.setRow row line).getRow r = b.getRow r := by
  unfold Board.getRow
  rw [(setRow_fields b row line).2.1]
  apply List.map_congr_left
  intro x hx
  rw [List.mem_range] at hx
  exact get_foldl_ne row r x hne line (List.range b.cols) b
    (fun j hj => List.mem_range.mp hj) hx

/-- The rows sweep aborts (contradiction or fault) whenever the index list
still contains a row with an unknown cell whose first clue cannot fit. -/
theorem rowsGo_bad (r : Nat) (c : Clue) (cs : List Clue) :
    ∀ (idxs : List Nat) (b : Board) (s : Nat) (fl : Bool),
      r ∈ idxs →
      b.rowClues.getD r [] = c :: cs →
      b.cols < c.run →
      hasUnknowns (b.getRow r) = true →
      ∀ (b2 : Board) (s2 : Nat) (fl2 : Bool), rowsGo idxs b s fl ≠ PassRes.cont b2 s2 fl2 := by
  intro idxs
  induction idxs with
  | nil => intro b s fl hmem; simp at hmem
  | cons i rest ih =>
    intro b s fl hmem hclue hrun hunk b2 s2 fl2 h
    by_cases hir : i = r
    · subst hir
      have hline : simpleSolveLine (b.getRow i) (b.rowClues.getD i []) = LineRes.unsat := by
        rw [hclue]
        exact simpleSolveLine_overrun _ c cs hunk (by rw [getRow_length]; exact hrun)
      simp only [rowsGo, hline] at h
      exact PassRes.noConfusion h
    · have hmem2 : r ∈ rest := by
        rcases List.mem_cons.mp hmem with he | hm
        · exact absurd he.symm hir
        · exact hm
      simp only [rowsGo] at h
      cases hl : simpleSolveLine (b.getRow i) (b.rowClues.getD i []) with
      | fault => simp only [hl] at h; exact PassRes.noConfusion h
      | unsat => simp only [hl] at h; exact PassRes.noConfusion h
      | ok line n u =>
        simp only [hl] at h
        by_cases hn : n > 0
        · rw [if_pos hn] at h
          exact ih (b.setRow i line) (s + 1) true hmem2
            (by rw [(setRow_fields b i line).2.2.1]; exact hclue)
            (by rw [(setRow_fields b i line).2.1]; exact hrun)
            (by rw [getRow_setRow_ne b i line r hir]; exact hunk) b2 s2 fl2 h
        · rw [if_neg hn] at h
          exact ih b s fl hmem2 hclue hrun hunk b2 s2 fl2 h

/-- A pass over a board with an unfittable row clue never continues. -/
theorem passOnce_bad (b : Board) (r : Nat) (c : Clue) (cs : List Clue)
    (hrow : r < b.rows) (hclue : b.rowClues.getD r [] = c :: cs)
    (hrun : b.cols < c.run) (hunk : hasUnknowns (b.getRow r) = true) :
    ∀ (s : Nat) (b2 : Board) (s2 : Nat) (fl2 : Bool),
      passOnce b s ≠ PassRes.cont b2 s2 fl2 := by
  intro s b2 s2 fl2 h
  unfold passOnce at h
  cases hr : rowsGo (List.range b.rows) b s false with
  | fault => simp only [hr] at h; exact PassRes.noConfusion h
  | contra bb ss => simp only [hr] at h; exact PassRes.noConfusion h
  | cont br sr flr =>
    exact rowsGo_bad r c cs (List.range b.rows) b s false
      (List.mem_range.mpr hrow) hclue hrun hunk br sr flr hr

/-- The batch propagator on such a board can only run out of fuel, fault, or
report a contradiction. -/
theorem batchGo_bad (b : Board) (r : Nat) (c : Clue) (cs : List Clue)
    (hrow : r < b.rows) (hclue : b.rowClues.getD r [] = c :: cs)
    (hrun : b.cols < c.run) (hunk : hasUnknowns (b.getRow r) = true) :
    ∀ (fuel s : Nat),
      batchGo fuel b s = none ∨ batchGo fuel b s = some BatchRes.fault ∨
      ∃ bb ss, batchGo fuel b s = some (BatchRes.contra bb ss) := by
  intro fuel s
  cases fuel with
  | zero => exact Or.inl rfl
  | succ k =>
    simp only [batchGo]
    cases hp : passOnce b s with
    | fault => exact Or.inr (Or.inl rfl)
    | contra bb ss => exact Or.inr (Or.inr ⟨bb, ss, rfl⟩)
    | cont bb ss fl =>
      exact absurd hp (passOnce_bad b r c cs hrow hclue hrun hunk s bb ss fl)

/-- For boards of legal dimensions, `partialCopyBoard` is the identity on the
board value (the data is deep-copied, the clues shared). -/
theorem partialCopyBoard_eq (b : Board) (h2r : 2 ≤ b.rows) (h2c : 2 ≤ b.cols) :
    partialCopyBoard b = b := by
  unfold partialCopyBoard
  rw [if_neg (by omega), if_neg (by omega)]

theorem natDigitsAux_lt :
    ∀ (fuel n : Nat), ∀ d ∈ natDigitsAux fuel n, d < 10 := by
  intro fuel
  induction fuel with
  | zero => intro n d hd; simp [natDigitsAux] at hd
  | succ k ih =>
    intro n d hd
    by_cases hn : n = 0
    · simp [natDigitsAux, hn] at hd
    · simp only [natDigitsAux, beq_iff_eq, hn, if_false, List.mem_cons] at hd
      cases hd with
      | inl h => subst h; exact Nat.mod_lt _ (by norm_num)
      | inr h => exact ih _ _ h

theorem unDigits_natDigitsAux :
    ∀ (fuel n : Nat), n ≤ fuel → unDigits (natDigitsAux fuel n) = n := by
  intro fuel
  induction fuel with
  | zero =>
    intro n hn
    interval_cases n
    simp [natDigitsAux, unDigits]
  | succ k ih =>
    intro n hn
    by_cases h0 : n = 0
    · simp [natDigitsAux, h0, unDigits]
    · have hdiv : n / 10 ≤ k := by
        have := Nat.div_lt_self (Nat.pos_of_ne_zero h0) (by norm_num : 1 < 10)
        omega
      simp only [natDigitsAux, beq_iff_eq, h0, if_false, unDigits]
      rw [ih _ hdiv]
      exact Nat.mod_add_div n 10

theorem digit_char_ne_comma :
    ∀ d : Nat, d < 10 → Char.ofNat (48 + d) ≠ ',' := by decide

theorem digit_char_ne_qmark :
    ∀ d : Nat, d < 10 → Char.ofNat (48 + d) ≠ '?' := by decide

theorem digit_char_inj :
    ∀ d1 : Nat, d1 < 10 → ∀ d2 : Nat, d2 < 10 →
      Char.ofNat (48 + d1) = Char.ofNat (48 + d2) → d1 = d2 := by decide

theorem natChars_ne_nil (n : Nat) : natChars n ≠ [] := by
  by_cases h0 : n = 0
  · simp [natChars, h0]
  · simp only [natChars, beq_iff_eq, h0, if_false, ne_eq, List.reverse_eq_nil_iff,
      List.map_eq_nil_iff]
    intro hd
    have h2 : unDigits (natDigitsAux n n) = n := unDigits_natDigitsAux n n le_rfl
    rw [hd] at h2
    simp [unDigits] at h2
    exact h0 h2.symm

theorem natChars_ne_comma (n : Nat) : ∀ c ∈ natChars n, c ≠ ',' := by
  intro c hc
  by_cases h0 : n = 0
  · simp [natChars, h0] at hc
    subst hc; decide
  · simp only [natChars, beq_iff_eq, h0, if_false, List.mem_reverse, List.mem_map] at hc
    obtain ⟨d, hd, rfl⟩ := hc
    exact digit_char_ne_comma d (natDigitsAux_lt n n d hd)

theorem natChars_ne_qmark (n : Nat) : ∀ c ∈ natChars n, c ≠ '?' := by
  intro c hc
  by_cases h0 : n = 0
  · simp [natChars, h0] at hc
    subst hc; decide
  · simp only [natChars, beq_iff_eq, h0, if_false, List.mem_reverse, List.mem_map] at hc
    obtain ⟨d, hd, rfl⟩ := hc
    exact digit_char_ne_qmark d (natDigitsAux_lt n n d hd)

theorem map_digit_char_inj :
    ∀ (xs ys : List Nat), (∀ d ∈ xs, d < 10) → (∀ d ∈ ys, d < 10) →
      xs.map (fun d => Char.ofNat (48 + d)) = ys.map (fun d => Char.ofNat (48 + d)) →
      xs = ys := by
  intro xs
  induction xs with
  | nil => intro ys _ _ h; cases ys with | nil => rfl | cons b bs => simp at h
  | cons a as ih =>
    intro ys hxs hys h
    cases ys with
    | nil => simp at h
    | cons b bs =>
      simp only [List.map_cons, List.cons.injEq] at h
      have ha := hxs a (List.mem_cons_self a as)
      have hb := hys b (List.mem_cons_self b bs)
      have e1 := digit_char_inj a ha b hb h.1
      have e2 := ih bs (fun d hd => hxs d (List.mem_cons_of_mem a hd))
        (fun d hd => hys d (List.mem_cons_of_mem b hd)) h.2
      rw [e1, e2]

theorem natChars_inj (m n : Nat) (h : natChars m = natChars n) : m = n := by
  by_cases hm : m = 0 <;> by_cases hn : n = 0
  · rw [hm, hn]
  · exfalso
    simp only [natChars, beq_iff_eq, hm, hn, if_true, if_false] at h
    have hq : '0' ∈ ((natDigitsAux n n).map (fun d => Char.ofNat (48 + d))).reverse := by
      rw [← h]; simp
    simp only [List.mem_reverse, List.mem_map] at hq
    obtain ⟨d, hd, hchar⟩ := hq
    have := digit_char_inj d (natDigitsAux_lt n n d hd) 0 (by norm_num)
      (by simpa using hchar)
    subst this
    have hroundtrip := unDigits_natDigitsAux n n le_rfl
    have hsingle : natDigitsAux n n = [0] := by
      cases hx : natDigitsAux n n with
      | nil => rw [hx] at hd; simp at hd
      | cons y ys =>
        rw [hx] at h hd
        have hlen := congrArg List.length h
        simp at hlen
        cases ys with
        | nil =>
          simp at hd
          subst hd
          rfl
        | cons z zs => simp at hlen
    rw [hsingle] at hroundtrip
    simp [unDigits] at hroundtrip
    exact hn hroundtrip.symm
  · exfalso
    simp only [natChars, beq_iff_eq, hm, hn, if_true, if_false] at h
    have hq : '0' ∈ ((natDigitsAux m m).map (fun d => Char.ofNat (48 + d))).reverse := by
      rw [h]; simp
    simp only [List.mem_reverse, List.mem_map] at hq
    obtain ⟨d, hd, hchar⟩ := hq
    have := digit_char_inj d (natDigitsAux_lt m m d hd) 0 (by norm_num)
      (by simpa using hchar)
    subst this
    have hroundtrip := unDigits_natDigitsAux m m le_rfl
    have hsingle : natDigitsAux m m = [0] := by
      cases hx : natDigitsAux m m with
      | nil => rw [hx] at hd; simp at hd
      | cons y ys =>
        rw [hx] at h hd
        have hlen := congrArg List.length h
        simp at hlen
        cases ys with
        | nil =>
          simp at hd
          subst hd
          rfl
        | cons z zs => simp at hlen
    rw [hsingle] at hroundtrip
    simp [unDigits] at hroundtrip
    exact hm hroundtrip.symm
  · simp only [natChars, beq_iff_eq, hm, hn, if_false] at h
    have h2 := List.reverse_injective h
    have h3 := map_digit_char_inj _ _ (natDigitsAux_lt m m) (natDigitsAux_lt n n) h2
    have rm := unDigits_natDigitsAux m m le_rfl
    have rn := unDigits_natDigitsAux n n le_rfl
    rw [← rm, ← rn, h3]

/-- Splitting a comma join at the first separator: comma-free prefixes and
the remainders agree. -/
theorem comma_split_inj :
    ∀ (x y rest1 rest2 : List Char), (∀ c ∈ x, c ≠ ',') → (∀ c ∈ y, c ≠ ',') →
      x ++ ',' :: rest1 = y ++ ',' :: rest2 → x = y ∧ rest1 = rest2 := by
  intro x
  induction x with
  | nil =>
    intro y rest1 rest2 _ hy h
    cases y with
    | nil => simp at h; exact ⟨rfl, h⟩
    | cons b bs =>
      simp at h
      exact absurd h.1.symm (hy b (List.mem_cons_self b bs))
  | cons a as ih =>
    intro y rest1 rest2 hx hy h
    cases y with
    | nil =>
      simp at h
      exact absurd h.1 (hx a (List.mem_cons_self a as))
    | cons b bs =>
      simp only [List.cons_append, List.cons.injEq] at h
      obtain ⟨e1, e2⟩ := h
      obtain ⟨e3, e4⟩ := ih bs rest1 rest2
        (fun c hc => hx c (List.mem_cons_of_mem a hc))
        (fun c hc => hy c (List.mem_cons_of_mem b hc)) e2
      rw [e1, e3]
      exact ⟨rfl, e4⟩

/-- `joinComma` is injective on lists of nonempty comma-free pieces. -/
theorem joinComma_inj :
    ∀ (l1 l2 : List (List Char)),
      (∀ s ∈ l1, s ≠ [] ∧ ∀ c ∈ s, c ≠ ',') →
      (∀ s ∈ l2, s ≠ [] ∧ ∀ c ∈ s, c ≠ ',') →
      joinComma l1 = joinComma l2 → l1 = l2 := by
  intro l1
  induction l1 with
  | nil =>
    intro l2 _ h2 h
    cases l2 with
    | nil => rfl
    | cons y ys =>
      cases ys with
      | nil =>
        simp only [joinComma] at h
        exact absurd h.symm (h2 y (List.mem_cons_self y [])).1
      | cons z zs =>
        simp only [joinComma] at h
        have hlen := congrArg List.length h
        simp at hlen
        omega
  | cons x xs ih =>
    intro l2 h1 h2 h
    cases xs with
    | nil =>
      cases l2 with
      | nil =>
        simp only [joinComma] at h
        exact absurd h (h1 x (List.mem_cons_self x [])).1
      | cons y ys =>
        cases ys with
        | nil =>
          simp only [joinComma] at h
          rw [h]
        | cons z zs =>
          exfalso
          simp only [joinComma] at h
          have hmem : ',' ∈ x := by rw [h]; simp
          exact (h1 x (List.mem_cons_self x [])).2 ',' hmem rfl
    | cons x2 xs2 =>
      cases l2 with
      | nil =>
        simp only [joinComma] at h
        have := congrArg List.length h
        simp at this
      | cons y ys =>
        cases ys with
        | nil =>
          exfalso
          simp only [joinComma] at h
          have hmem : ',' ∈ y := by rw [← h]; simp
          exact (h2 y (List.mem_cons_self y [])).2 ',' hmem rfl
        | cons y2 ys2 =>
          simp only [joinComma] at h
          obtain ⟨e1, e2⟩ := comma_split_inj x y _ _
            (h1 x (List.mem_cons_self x _)).2
            (h2 y (List.mem_cons_self y _)).2 h
          have e3 := ih (y2 :: ys2)
            (fun s hs => h1 s (List.mem_cons_of_mem x hs))
            (fun s hs => h2 s (List.mem_cons_of_mem y hs)) e2
          rw [e1, e3]

theorem cellChars_ok (c : Cell) (hc : isConcreteOrUnknown c = true) :
    cellChars c ≠ [] ∧ ∀ ch ∈ cellChars c, ch ≠ ',' := by
  cases c with
  | unknown =>
    refine ⟨by simp [cellChars], ?_⟩
    intro ch hch
    simp [cellChars] at hch
    subst hch; decide
  | num n => exact ⟨natChars_ne_nil n, natChars_ne_comma n⟩
  | set l => simp [isConcreteOrUnknown] at hc

theorem cellChars_inj (c1 c2 : Cell)
    (h1 : isConcreteOrUnknown c1 = true) (h2 : isConcreteOrUnknown c2 = true)
    (h : cellChars c1 = cellChars c2) : c1 = c2 := by
  cases c1 with
  | set l => simp [isConcreteOrUnknown] at h1
  | unknown =>
    cases c2 with
    | set l => simp [isConcreteOrUnknown] at h2
    | unknown => rfl
    | num n =>
      exfalso
      simp only [cellChars] at h
      have : '?' ∈ natChars n := by rw [← h]; simp
      exact natChars_ne_qmark n '?' this rfl
  | num m =>
    cases c2 with
    | set l => simp [isConcreteOrUnknown] at h2
    | unknown =>
      exfalso
      simp only [cellChars] at h
      have : '?' ∈ natChars m := by rw [h]; simp
      exact natChars_ne_qmark m '?' this rfl
    | num n => rw [natChars_inj m n h]

theorem map_cellChars_inj :
    ∀ (d1 d2 : List Cell), (∀ c ∈ d1, isConcreteOrUnknown c = true) →
      (∀ c ∈ d2, isConcreteOrUnknown c = true) →
      d1.map cellChars = d2.map cellChars → d1 = d2 := by
  intro d1
  induction d1 with
  | nil => intro d2 _ _ h; cases d2 with | nil => rfl | cons b bs => simp at h
  | cons a as ih =>
    intro d2 ha hb h
    cases d2 with
    | nil => simp at h
    | cons b bs =>
      simp only [List.map_cons, List.cons.injEq] at h
      have e1 := cellChars_inj a b (ha a (List.mem_cons_self a as))
        (hb b (List.mem_cons_self b bs)) h.1
      have e2 := ih bs (fun c hc => ha c (List.mem_cons_of_mem a hc))
        (fun c hc => hb c (List.mem_cons_of_mem b hc)) h.2
      rw [e1, e2]

/-- Claim C8 (amended): `makeToken` is injective on boards of the same
dimensions whose cells are all concrete or unknown — equal tokens imply equal
data.  (As stated the claim is false once possibility-set cells are involved;
see the counterexample.) -/
theorem claim_C8_token_inj (b1 b2 : Board)
    (h1 : b1.data.all isConcreteOrUnknown = true)
    (h2 : b2.data.all isConcreteOrUnknown = true)
    (hr : b1.rows = b2.rows) (hc : b1.cols = b2.cols)
    (ht : b1.makeToken = b2.makeToken) : b1.data = b2.data := by
  rw [List.all_eq_true] at h1 h2
  have h1b : ∀ c ∈ b1.data, isConcreteOrUnknown c = true := fun c hc0 => h1 c hc0
  have h2b : ∀ c ∈ b2.data, isConcreteOrUnknown c = true := fun c hc0 => h2 c hc0
  have hj := joinComma_inj (b1.data.map cellChars) (b2.data.map cellChars)
    (by
      intro s hs
      rw [List.mem_map] at hs
      obtain ⟨c, hcm, rfl⟩ := hs
      exact cellChars_ok c (h1b c hcm))
    (by
      intro s hs
      rw [List.mem_map] at hs
      obtain ⟨c, hcm, rfl⟩ := hs
      exact cellChars_ok c (h2b c hcm))
    ht
  exact map_cellChars_inj b1.data b2.data h1b h2b hj

/-- Witness for the amended C8: applying the injectivity theorem at the blank
board against itself. -/
theorem claim_C8_witness :
    blankBoard.data.all isConcreteOrUnknown = true ∧
    blankBoard.data = blankBoard.data :=
  ⟨by decide,
    claim_C8_token_inj blankBoard blankBoard (by decide) (by decide) rfl rfl rfl⟩

/-- Claim C5 (amended): for every line that still contains an unknown cell
and whose first clue's run exceeds the line length, `simpleSolveLine` returns
the unsatisfiability signal; and for every board one of whose rows is such a
line, `findPossibleSolutions` returns the empty list whenever it returns
normally.  (As stated the claim is false — a fully concrete line is returned
as `[0,0]` without any check; see the counterexample.) -/
theorem claim_C5_overrun_unsat :
    (∀ (line : List Cell) (c : Clue) (cs : List Clue),
      hasUnknowns line = true → line.length < c.run →
      simpleSolveLine line (c :: cs) = LineRes.unsat) ∧
    (∀ (board : Board) (r : Nat) (c : Clue) (cs : List Clue) (fuel : Nat)
      (l : List Board),
      2 ≤ board.rows → 2 ≤ board.cols → r < board.rows →
      board.rowClues.getD r [] = c :: cs → board.cols < c.run →
      hasUnknowns (board.getRow r) = true →
      findPossibleSolutions fuel board = some (Except.ok l) → l = []) := by
  constructor
  · intro line c cs hu hrun
    exact simpleSolveLine_overrun line c cs hu hrun
  · intro board r c cs fuel l h2r h2c hrow hclue hrun hunk h
    simp only [findPossibleSolutions] at h
    rw [partialCopyBoard_eq board h2r h2c] at h
    cases fuel with
    | zero => simp [searchGo] at h
    | succ k =>
      rcases batchGo_bad board r c cs hrow hclue hrun hunk (k + 1) 0 with
        hb | hb | ⟨bb, ss, hb⟩
      · simp only [searchGo, hb] at h
        exact Option.noConfusion h
      · simp only [searchGo, hb] at h
        simp at h
      · simp only [searchGo, hb] at h
        simp at h
        exact h

/-- Witness for the amended C5: an all-unknown length-2 line with clue run 3,
and the 2×2 all-unknown board whose first row carries that clue. -/
theorem claim_C5_witness :
    simpleSolveLine [Cell.unknown, Cell.unknown] [⟨1, 3⟩] = LineRes.unsat ∧
    findPossibleSolutions 2 overrunUnknownBoard = some (Except.ok []) ∧
    ([] : List Board) = [] :=
  ⟨claim_C5_overrun_unsat.1 [Cell.unknown, Cell.unknown] ⟨1, 3⟩ [] (by decide) (by decide),
   by decide,
   claim_C5_overrun_unsat.2 overrunUnknownBoard 0 ⟨1, 3⟩ [] 2 [] (by decide) (by decide)
     (by decide) (by decide) (by decide) (by decide) (by decide)⟩

/-- Witness for C9: solution depth 2 is closer to the target 3 than depth 5,
with dead ends, steps and board fixed. -/
theorem claim_C9_witness :
    |(2 : ℚ) - 3| ≤ |(5 : ℚ) - 3| ∧
    scoreStats ⟨3, 2, 300⟩ ⟨2, 1, 50⟩ blankBoard ≤
      scoreStats ⟨3, 2, 300⟩ ⟨5, 1, 50⟩ blankBoard :=
  ⟨by norm_num,
    claim_C9_score_monotone ⟨3, 2, 300⟩ ⟨2, 1, 50⟩ ⟨5, 1, 50⟩ blankBoard blankBoard
      rfl rfl rfl rfl rfl (by norm_num)⟩

end Nonogrammer
